import Mathlib

/-!
# WorkflowPro backend: shallow embedding of the authorization-aware data layer

This file embeds the data-access layer of `crud.py` (task / project / team
member CRUD and the analytics rollups) as pure Lean functions over an explicit
database state, and proves / refutes the spec claims about it.

The database is a record of lists of rows, mirroring the four tables of
`models.py` as described by the data model and by the column accesses in
`crud.py` / `schemas.py`.  SQLAlchemy queries of the pattern
`db.query(T).filter(...).first()` become `List.find?`, `.all()` becomes
`List.filter`, `.count()` becomes `List.countP`, `.offset(skip).limit(n)`
becomes `List.drop skip |>.take n`, and `union` of two project queries becomes
concatenation followed by de-duplication on the primary key (SQL `UNION`
removes duplicate rows, and project rows are distinct exactly when their ids
are).  Primary keys are generated from a monotone `nextId` counter, which
models autoincrement ids (never reused).  `datetime` values are opaque `Nat`
timestamps; Python's float `completion_rate` arithmetic is modelled over `ℚ`,
with `round2` standing for `round(x, 2)`.
-/

namespace WorkflowPro

/-- A row of the `users` table (`models.User`, per spec section 3 and usage in
`crud.py` / `main.py`). -/
structure User where
  id : Nat
  email : String
  username : String
  full_name : Option String
  is_active : Bool
  is_admin : Bool
  deriving Repr, DecidableEq

/-- A row of the `projects` table (`models.Project`). -/
structure Project where
  id : Nat
  name : String
  description : Option String
  status : String
  owner_id : Nat
  deriving Repr, DecidableEq

/-- A row of the `team_members` table (`models.TeamMember`). -/
structure TeamMember where
  id : Nat
  project_id : Nat
  user_id : Nat
  role : String
  deriving Repr, DecidableEq

/-- A row of the `tasks` table (`models.Task`).  `due_date` is an opaque
timestamp. -/
structure Task where
  id : Nat
  title : String
  description : Option String
  status : String
  priority : String
  project_id : Option Nat
  due_date : Option Nat
  assigned_user_id : Nat
  deriving Repr, DecidableEq

/-- The persistent store: the four tables plus the autoincrement counter for
fresh primary keys. -/
structure DB where
  users : List User
  projects : List Project
  tasks : List Task
  members : List TeamMember
  nextId : Nat
  deriving Repr, DecidableEq

/-- The empty database (fresh schema, as created at startup). -/
def DB.empty : DB := ⟨[], [], [], [], 0⟩

/-- Mirror of `schemas.TaskCreate`: the request body of task creation.  It has no
`assigned_user_id` field. -/
structure TaskCreate where
  title : String
  description : Option String
  status : String
  priority : String
  project_id : Option Nat
  due_date : Option Nat
  deriving Repr, DecidableEq

/-- Mirror of `schemas.TaskUpdate`: every field optional; `none` models a field absent
from the patch (pydantic `exclude_unset`).  For the nullable columns the inner
`Option` is the stored value. -/
structure TaskUpdate where
  title : Option String := none
  description : Option (Option String) := none
  status : Option String := none
  priority : Option String := none
  project_id : Option (Option Nat) := none
  due_date : Option (Option Nat) := none
  deriving Repr, DecidableEq

/-- Mirror of `schemas.ProjectCreate`. -/
structure ProjectCreate where
  name : String
  description : Option String
  status : String
  deriving Repr, DecidableEq

/-- Mirror of `schemas.ProjectUpdate` (note: no `owner_id` field). -/
structure ProjectUpdate where
  name : Option String := none
  description : Option (Option String) := none
  status : Option String := none
  deriving Repr, DecidableEq

/-- Mirror of `schemas.TeamMemberCreate`: role defaults to `"member"` but is a freeform
string supplied by the caller (`main.py` passes `team_member_data.get("role",
"member")` through unchecked). -/
structure TeamMemberCreate where
  role : String
  user_id : Nat
  project_id : Nat
  deriving Repr, DecidableEq

/-- Rewrite the first list element satisfying `p` with `f` (SQLAlchemy
`setattr` mutates the single row object returned by `.first()`). -/
def updateFirstP {α : Type} (p : α → Bool) (f : α → α) : List α → List α
  | [] => []
  | a :: as => if p a then f a :: as else a :: updateFirstP p f as

/-- Remove the first list element satisfying `p` (`db.delete` removes the
single row object returned by `.first()`). -/
def eraseFirstP {α : Type} (p : α → Bool) : List α → List α
  | [] => []
  | a :: as => if p a then as else a :: eraseFirstP p as

/-! ## Task CRUD (`crud.py` lines 8-54) -/

/-- Embedding of `crud.get_tasks`: all tasks assigned to `user_id`, paginated. -/
def get_tasks (db : DB) (user_id : Nat) (skip : Nat := 0) (limit : Nat := 100) :
    List Task :=
  ((db.tasks.filter fun t => t.assigned_user_id == user_id).drop skip).take limit

/-- Embedding of `crud.get_task`: first task with the given id that is assigned to
`user_id`. -/
def get_task (db : DB) (task_id user_id : Nat) : Option Task :=
  db.tasks.find? fun t => t.id == task_id && t.assigned_user_id == user_id

/-- Embedding of `crud.create_task`: inserts a task with the request's fields and
`assigned_user_id = user_id`; returns the new row and the new state. -/
def create_task (db : DB) (task : TaskCreate) (user_id : Nat) : Task × DB :=
  let db_task : Task :=
    { id := db.nextId
      title := task.title
      description := task.description
      status := task.status
      priority := task.priority
      project_id := task.project_id
      due_date := task.due_date
      assigned_user_id := user_id }
  (db_task, { db with tasks := db.tasks ++ [db_task], nextId := db.nextId + 1 })

/-- Applying a `TaskUpdate` patch to a task row: only fields present in the
patch are written (`model_dump(exclude_unset=True)` then `setattr`). -/
def applyTaskUpdate (t : Task) (u : TaskUpdate) : Task :=
  { t with
    title := u.title.getD t.title
    description := u.description.getD t.description
    status := u.status.getD t.status
    priority := u.priority.getD t.priority
    project_id := u.project_id.getD t.project_id
    due_date := u.due_date.getD t.due_date }

/-- Embedding of `crud.update_task`: finds the task by `(id, assigned_user_id)`; on miss
returns `none` and leaves the state unchanged, otherwise writes the patched
fields in place. -/
def update_task (db : DB) (task_id : Nat) (task_update : TaskUpdate)
    (user_id : Nat) : Option Task × DB :=
  match db.tasks.find? fun t => t.id == task_id && t.assigned_user_id == user_id with
  | none => (none, db)
  | some db_task =>
      let t' := applyTaskUpdate db_task task_update
      (some t',
        { db with
          tasks := updateFirstP
            (fun t => t.id == task_id && t.assigned_user_id == user_id)
            (fun t => applyTaskUpdate t task_update) db.tasks })

/-- Embedding of `crud.delete_task`: same visibility predicate; deletes the row and reports
success as a boolean. -/
def delete_task (db : DB) (task_id user_id : Nat) : Bool × DB :=
  match db.tasks.find? fun t => t.id == task_id && t.assigned_user_id == user_id with
  | none => (false, db)
  | some _ =>
      (true,
        { db with
          tasks := eraseFirstP
            (fun t => t.id == task_id && t.assigned_user_id == user_id) db.tasks })

/-! ## Project CRUD (`crud.py` lines 56-146) -/

/-- De-duplicate a list of projects keeping the first occurrence of each id
(SQL `UNION` removes duplicate rows; project rows coincide exactly when their
primary keys do). -/
def dedupById : List Project → List Project
  | [] => []
  | p :: ps =>
      p :: dedupById (ps.filter fun q => !(q.id == p.id))
termination_by l => l.length
decreasing_by
  simp only [List.length_cons]
  exact Nat.lt_succ_of_le (List.length_filter_le _ _)

/-- Embedding of `crud.get_projects`: union of the projects owned by the user and the
projects joined through a `TeamMember` row for the user, paginated.  The join
emits one project row per matching membership row; `union` then removes
duplicates. -/
def get_projects (db : DB) (user_id : Nat) (skip : Nat := 0) (limit : Nat := 100) :
    List Project :=
  let owned_projects := db.projects.filter fun p => p.owner_id == user_id
  let team_projects := db.projects.flatMap fun p =>
    (db.members.filter fun m => m.project_id == p.id && m.user_id == user_id).map
      fun _ => p
  ((dedupById (owned_projects ++ team_projects)).drop skip).take limit

/-- Embedding of `crud.get_project`: the project by id, returned only when the user owns it
or holds any membership row for it. -/
def get_project (db : DB) (project_id user_id : Nat) : Option Project :=
  match db.projects.find? fun p => p.id == project_id with
  | none => none
  | some project =>
      if project.owner_id == user_id then some project
      else
        match db.members.find? fun m =>
            m.project_id == project_id && m.user_id == user_id with
        | some _ => some project
        | none => none

/-- Embedding of `crud.create_project`: inserts the project row with `owner_id = user_id`,
then inserts the owner's `TeamMember` row with role `"owner"`. -/
def create_project (db : DB) (project : ProjectCreate) (user_id : Nat) :
    Project × DB :=
  let db_project : Project :=
    { id := db.nextId
      name := project.name
      description := project.description
      status := project.status
      owner_id := user_id }
  let team_member : TeamMember :=
    { id := db.nextId + 1
      project_id := db_project.id
      user_id := user_id
      role := "owner" }
  (db_project,
    { db with
      projects := db.projects ++ [db_project]
      members := db.members ++ [team_member]
      nextId := db.nextId + 2 })

/-- Applying a `ProjectUpdate` patch (only fields present in the patch;
`owner_id` is not a patch field). -/
def applyProjectUpdate (p : Project) (u : ProjectUpdate) : Project :=
  { p with
    name := u.name.getD p.name
    description := u.description.getD p.description
    status := u.status.getD p.status }

/-- Embedding of `crud.update_project`: finds the project by `(id, owner_id)`; on miss
returns `none`, otherwise writes the patched fields. -/
def update_project (db : DB) (project_id : Nat) (project_update : ProjectUpdate)
    (user_id : Nat) : Option Project × DB :=
  match db.projects.find? fun p => p.id == project_id && p.owner_id == user_id with
  | none => (none, db)
  | some db_project =>
      (some (applyProjectUpdate db_project project_update),
        { db with
          projects := updateFirstP
            (fun p => p.id == project_id && p.owner_id == user_id)
            (fun p => applyProjectUpdate p project_update) db.projects })

/-- Embedding of `crud.delete_project`: same owner-only predicate; deletes the project row
(and only it — membership and task rows are not touched by this function). -/
def delete_project (db : DB) (project_id user_id : Nat) : Bool × DB :=
  match db.projects.find? fun p => p.id == project_id && p.owner_id == user_id with
  | none => (false, db)
  | some _ =>
      (true,
        { db with
          projects := eraseFirstP
            (fun p => p.id == project_id && p.owner_id == user_id) db.projects })

/-- Raw count of tasks whose `project_id` points at the given project, as
computed by `crud.get_project_with_team` and the per-project analytics.  Not
filtered by any authorization. -/
def projectTaskCount (db : DB) (project_id : Nat) : Nat :=
  db.tasks.countP fun t => t.project_id == some project_id

/-- Embedding of `crud.get_project_with_team`: access per `get_project`, enriched with the
full membership list and the raw task count. -/
def get_project_with_team (db : DB) (project_id user_id : Nat) :
    Option (Project × List TeamMember × Nat) :=
  match get_project db project_id user_id with
  | none => none
  | some project =>
      some (project,
        db.members.filter fun m => m.project_id == project_id,
        projectTaskCount db project_id)

/-! ## Team member CRUD (`crud.py` lines 148-230) -/

/-- Embedding of `crud.add_team_member`: requester must be the project owner or hold an
`"owner"`/`"admin"` membership; the target pair must not already have a row.
All denial paths return `none` with the state unchanged.  The inserted row's
`role` is copied verbatim from the request. -/
def add_team_member (db : DB) (team_member : TeamMemberCreate)
    (requester_user_id : Nat) : Option TeamMember × DB :=
  match db.projects.find? fun p => p.id == team_member.project_id with
  | none => (none, db)
  | some project =>
      let permitted :=
        project.owner_id == requester_user_id ||
          (db.members.any fun m =>
            m.project_id == team_member.project_id &&
            m.user_id == requester_user_id &&
            (m.role == "owner" || m.role == "admin"))
      if !permitted then (none, db)
      else
        match db.members.find? fun m =>
            m.project_id == team_member.project_id &&
            m.user_id == team_member.user_id with
        | some _ => (none, db)
        | none =>
            let db_team_member : TeamMember :=
              { id := db.nextId
                project_id := team_member.project_id
                user_id := team_member.user_id
                role := team_member.role }
            (some db_team_member,
              { db with
                members := db.members ++ [db_team_member]
                nextId := db.nextId + 1 })

/-- Embedding of `crud.remove_team_member`: requester permission as in `add_team_member`;
removing the project owner is denied unconditionally; otherwise the first
membership row of the pair is deleted when present. -/
def remove_team_member (db : DB) (project_id user_id requester_user_id : Nat) :
    Bool × DB :=
  match db.projects.find? fun p => p.id == project_id with
  | none => (false, db)
  | some project =>
      let permitted :=
        project.owner_id == requester_user_id ||
          (db.members.any fun m =>
            m.project_id == project_id &&
            m.user_id == requester_user_id &&
            (m.role == "owner" || m.role == "admin"))
      if !permitted then (false, db)
      else if project.owner_id == user_id then (false, db)
      else
        match db.members.find? fun m =>
            m.project_id == project_id && m.user_id == user_id with
        | none => (false, db)
        | some _ =>
            (true,
              { db with
                members := eraseFirstP
                  (fun m => m.project_id == project_id && m.user_id == user_id)
                  db.members })

/-- Embedding of `crud.get_team_members`: access per `get_project`, then the full
membership list of the project. -/
def get_team_members (db : DB) (project_id user_id : Nat) :
    Option (List TeamMember) :=
  match get_project db project_id user_id with
  | none => none
  | some _ => some (db.members.filter fun m => m.project_id == project_id)

/-! ## User search (`crud.py` lines 226-230)

`search_users_by_email` filters with `User.email.ilike(f"%{email_query}%")`:
the query fragment is spliced into a SQL `LIKE` pattern with no escaping, and
the match is case-insensitive.  We model SQL `LIKE` over lowered character
lists: `%` matches any sequence, `_` matches any single character, everything
else matches itself. -/

/-- ASCII lowering of one character, as SQL `LOWER`/`ILIKE` folds case. -/
def lowerChar (c : Char) : Char := c.toLower

/-- Lowering of a character list. -/
def lowerList (s : List Char) : List Char := s.map lowerChar

/-- SQL `LIKE` pattern matching: first argument the pattern, second the
subject. -/
def likeMatch : List Char → List Char → Bool
  | [], s => s.isEmpty
  | p :: ps, s =>
      if p = '%' then s.tails.any fun t => likeMatch ps t
      else
        match s with
        | [] => false
        | c :: s' => (p == '_' || p == c) && likeMatch ps s'

/-- Embedding of `crud.search_users_by_email`: users whose email matches the `ILIKE`
pattern `%email_query%`, up to `limit`. -/
def search_users_by_email (db : DB) (email_query : String) (limit : Nat := 10) :
    List User :=
  (db.users.filter fun u =>
    likeMatch (lowerList ('%' :: email_query.data ++ ['%']))
      (lowerList u.email.data)).take limit

/-! ## Analytics (`crud.py` lines 232-351)

Completion rates are computed over `ℚ`; `round2` models Python `round(x, 2)`
(the claims at issue do not turn on the tie-breaking convention). -/

/-- Round a rational to two decimal places. -/
def round2 (q : ℚ) : ℚ := (round (q * 100) : ℤ) / 100

/-- Result record of `crud.get_system_overview`. -/
structure SystemOverview where
  total_users : Nat
  total_projects : Nat
  total_tasks : Nat
  completed_tasks : Nat
  active_tasks : Nat
  completion_rate : ℚ
  deriving Repr, DecidableEq

/-- Embedding of `crud.get_system_overview`: global counts and the guarded completion
rate. -/
def get_system_overview (db : DB) : SystemOverview :=
  let total_tasks := db.tasks.length
  let completed_tasks := db.tasks.countP fun t => t.status == "completed"
  { total_users := db.users.length
    total_projects := db.projects.length
    total_tasks := total_tasks
    completed_tasks := completed_tasks
    active_tasks := db.tasks.countP fun t =>
      t.status == "pending" || t.status == "in_progress"
    completion_rate :=
      if total_tasks > 0 then
        round2 ((completed_tasks : ℚ) / (total_tasks : ℚ) * 100)
      else 0 }

/-- One entry of `crud.get_user_task_statistics`. -/
structure UserTaskStats where
  user_id : Nat
  user_name : String
  user_email : String
  total_tasks : Nat
  completed_tasks : Nat
  in_progress_tasks : Nat
  pending_tasks : Nat
  cancelled_tasks : Nat
  completion_rate : ℚ
  deriving Repr, DecidableEq

/-- Embedding of `crud.get_user_task_statistics`: one stats row per user. -/
def get_user_task_statistics (db : DB) : List UserTaskStats :=
  db.users.map fun user =>
    let total_tasks := db.tasks.countP fun t => t.assigned_user_id == user.id
    let completed_tasks := db.tasks.countP fun t =>
      t.assigned_user_id == user.id && t.status == "completed"
    { user_id := user.id
      user_name := user.full_name.getD user.username
      user_email := user.email
      total_tasks := total_tasks
      completed_tasks := completed_tasks
      in_progress_tasks := db.tasks.countP fun t =>
        t.assigned_user_id == user.id && t.status == "in_progress"
      pending_tasks := db.tasks.countP fun t =>
        t.assigned_user_id == user.id && t.status == "pending"
      cancelled_tasks := db.tasks.countP fun t =>
        t.assigned_user_id == user.id && t.status == "cancelled"
      completion_rate :=
        if total_tasks > 0 then
          round2 ((completed_tasks : ℚ) / (total_tasks : ℚ) * 100)
        else 0 }

/-- One entry of `crud.get_project_task_statistics`. -/
structure ProjectTaskStats where
  project_id : Nat
  project_name : String
  total_tasks : Nat
  completed_tasks : Nat
  in_progress_tasks : Nat
  pending_tasks : Nat
  cancelled_tasks : Nat
  completion_rate : ℚ
  team_size : Nat
  deriving Repr, DecidableEq

/-- Embedding of `crud.get_project_task_statistics`: one stats row per project, with the
raw (unauthorized) task counts. -/
def get_project_task_statistics (db : DB) : List ProjectTaskStats :=
  db.projects.map fun project =>
    let total_tasks := projectTaskCount db project.id
    let completed_tasks := db.tasks.countP fun t =>
      t.project_id == some project.id && t.status == "completed"
    { project_id := project.id
      project_name := project.name
      total_tasks := total_tasks
      completed_tasks := completed_tasks
      in_progress_tasks := db.tasks.countP fun t =>
        t.project_id == some project.id && t.status == "in_progress"
      pending_tasks := db.tasks.countP fun t =>
        t.project_id == some project.id && t.status == "pending"
      cancelled_tasks := db.tasks.countP fun t =>
        t.project_id == some project.id && t.status == "cancelled"
      completion_rate :=
        if total_tasks > 0 then
          round2 ((completed_tasks : ℚ) / (total_tasks : ℚ) * 100)
        else 0
      team_size := db.members.countP fun m => m.project_id == project.id }

/-! ## The repository operation machine

The mutating operations of the public surface (`main.py` endpoints delegate
to these `crud.py` functions, always passing `current_user.id` as the acting
user). -/

/-- One mutating repository operation together with its acting user. -/
inductive Op where
  | createTask (data : TaskCreate) (uid : Nat)
  | updateTask (task_id : Nat) (patch : TaskUpdate) (uid : Nat)
  | deleteTask (task_id : Nat) (uid : Nat)
  | createProject (data : ProjectCreate) (uid : Nat)
  | updateProject (project_id : Nat) (patch : ProjectUpdate) (uid : Nat)
  | deleteProject (project_id : Nat) (uid : Nat)
  | addTeamMember (data : TeamMemberCreate) (uid : Nat)
  | removeTeamMember (project_id target_user_id : Nat) (uid : Nat)
  deriving Repr, DecidableEq

/-- The acting (authenticated) user of an operation. -/
def Op.actor : Op → Nat
  | .createTask _ uid => uid
  | .updateTask _ _ uid => uid
  | .deleteTask _ uid => uid
  | .createProject _ uid => uid
  | .updateProject _ _ uid => uid
  | .deleteProject _ uid => uid
  | .addTeamMember _ uid => uid
  | .removeTeamMember _ _ uid => uid

/-- State transition of one operation. -/
def applyOp (db : DB) : Op → DB
  | .createTask data uid => (create_task db data uid).2
  | .updateTask task_id patch uid => (update_task db task_id patch uid).2
  | .deleteTask task_id uid => (delete_task db task_id uid).2
  | .createProject data uid => (create_project db data uid).2
  | .updateProject project_id patch uid => (update_project db project_id patch uid).2
  | .deleteProject project_id uid => (delete_project db project_id uid).2
  | .addTeamMember data uid => (add_team_member db data uid).2
  | .removeTeamMember project_id target uid =>
      (remove_team_member db project_id target uid).2

/-- Run a trace of operations from a state. -/
def run (db : DB) (ops : List Op) : DB := ops.foldl applyOp db

/-- Membership rows of a project naming its owner as the member. -/
def ownerRows (db : DB) (p : Project) : List TeamMember :=
  db.members.filter fun m => m.project_id == p.id && m.user_id == p.owner_id

/-- Well-formedness of a database state: primary keys are below the
autoincrement counter, project ids are distinct, and every project has
exactly one membership row for its owner, which carries role `"owner"`. -/
def WF (db : DB) : Prop :=
  (∀ p ∈ db.projects, p.id < db.nextId) ∧
  (∀ m ∈ db.members, m.project_id < db.nextId) ∧
  (db.projects.map Project.id).Nodup ∧
  (∀ p ∈ db.projects, ∃ m : TeamMember,
    ownerRows db p = [m] ∧ m.role = "owner")

/-! ## Predicates, example stores and traces used by the claims -/

/-- The task-access predicate of `crud.py`: a task with this id exists and is
assigned to this user.  Project membership plays no role. -/
def taskVisible (db : DB) (task_id user_id : Nat) : Prop :=
  ∃ t ∈ db.tasks, t.id = task_id ∧ t.assigned_user_id = user_id

instance (db : DB) (task_id user_id : Nat) :
    Decidable (taskVisible db task_id user_id) := by
  unfold taskVisible; infer_instance

/-- The project-write predicate of `crud.py`: the project exists and the actor
is its owner. -/
def projectOwned (db : DB) (project_id user_id : Nat) : Prop :=
  ∃ p ∈ db.projects, p.id = project_id ∧ p.owner_id = user_id

instance (db : DB) (project_id user_id : Nat) :
    Decidable (projectOwned db project_id user_id) := by
  unfold projectOwned; infer_instance

/-- The requester-permission test of `add_team_member` / `remove_team_member`
on a project row: the requester is the owner or holds an owner/admin
membership for the project. -/
def teamWritePermitted (db : DB) (project_id : Nat) (p : Project)
    (requester : Nat) : Bool :=
  p.owner_id == requester ||
    (db.members.any fun m =>
      m.project_id == project_id && m.user_id == requester &&
        (m.role == "owner" || m.role == "admin"))

/-- Number of membership rows for one (project, user) pair. -/
def pairCount (db : DB) (project_id user_id : Nat) : Nat :=
  db.members.countP fun m => m.project_id == project_id && m.user_id == user_id

/-- A trace that creates a project and then adds a second member with the
unvalidated role string `"owner"`: user 1 creates project 0, then (as its
owner) adds user 2 with role `"owner"`. -/
def twoOwnerRoleTrace : List Op :=
  [.createProject ⟨"Alpha", none, "planning"⟩ 1,
   .addTeamMember ⟨"owner", 2, 0⟩ 1]

/-- The un-paginated project listing of `crud.get_projects` (everything before
`offset`/`limit`). -/
def get_projects_all (db : DB) (user_id : Nat) : List Project :=
  dedupById
    ((db.projects.filter fun p => p.owner_id == user_id) ++
      (db.projects.flatMap fun p =>
        (db.members.filter fun m => m.project_id == p.id && m.user_id == user_id).map
          fun _ => p))

/-- A store with one user and two tasks (one completed) for the analytics
witness. -/
def c8Db : DB :=
  { users := [⟨1, "a@x.com", "a", none, true, false⟩]
    projects := []
    tasks := [⟨10, "t1", none, "completed", "medium", none, none, 1⟩,
              ⟨11, "t2", none, "pending", "medium", none, none, 1⟩]
    members := [], nextId := 20 }

/-- The statistics row the analytics produce for the one user of `c8Db`. -/
def c8UserStats : UserTaskStats := ⟨1, "a", "a@x.com", 2, 1, 0, 1, 0, 50⟩

/-- Modelled from the spec's words for the refinement comparison:
`searchUsersByEmail` is described as a "case-insensitive substring match on
email", i.e. the lowered query occurs contiguously in the lowered email. -/
def emailContainsQueryCI (email_query email : String) : Prop :=
  List.IsInfix (lowerList email_query.data) (lowerList email.data)

instance (email_query email : String) :
    Decidable (emailContainsQueryCI email_query email) := by
  unfold emailContainsQueryCI
  exact List.decidableInfix _ _

/-- A one-user store for the search counterexample and witness. -/
def searchDb : DB :=
  { users := [⟨1, "abc@x.com", "abc", none, true, false⟩]
    projects := [], tasks := [], members := [], nextId := 2 }

/-! ## Helper lemmas -/

theorem mem_eraseFirstP {α : Type} {p : α → Bool} {l : List α} {x : α}
    (h : x ∈ eraseFirstP p l) : x ∈ l := by
  induction l with
  | nil => simp [eraseFirstP] at h
  | cons a as ih =>
      simp only [eraseFirstP] at h
      by_cases hp : p a
      · simp [hp] at h
        exact List.mem_cons_of_mem _ h
      · simp [hp] at h
        rcases h with h | h
        · simp [h]
        · exact List.mem_cons_of_mem _ (ih h)

theorem mem_updateFirstP {α : Type} {p : α → Bool} {f : α → α} {l : List α}
    {x : α} (h : x ∈ updateFirstP p f l) : x ∈ l ∨ ∃ y ∈ l, x = f y := by
  induction l with
  | nil => simp [updateFirstP] at h
  | cons a as ih =>
      simp only [updateFirstP] at h
      by_cases hp : p a
      · simp [hp] at h
        rcases h with h | h
        · exact Or.inr ⟨a, List.mem_cons_self a as, h⟩
        · exact Or.inl (List.mem_cons_of_mem _ h)
      · simp [hp] at h
        rcases h with h | h
        · exact Or.inl (by simp [h])
        · rcases ih h with h' | ⟨y, hy, hxy⟩
          · exact Or.inl (List.mem_cons_of_mem _ h')
          · exact Or.inr ⟨y, List.mem_cons_of_mem _ hy, hxy⟩

/-! ## Claim C1: task access is a single predicate shared by get/update/delete -/

theorem find?_task_isSome (db : DB) (task_id user_id : Nat) :
    (db.tasks.find? fun t => t.id == task_id && t.assigned_user_id == user_id).isSome
      ↔ taskVisible db task_id user_id := by
  rw [List.find?_isSome]
  simp [taskVisible]

/-- C1: `get_task`, `update_task` and `delete_task` succeed exactly when a
task with the given id exists and is assigned to the given user; the three
operations share this one predicate, so they succeed or fail together, and
project membership is irrelevant to task access. -/
theorem task_ops_share_access_predicate (db : DB) (task_id user_id : Nat)
    (patch : TaskUpdate) :
    ((get_task db task_id user_id).isSome ↔ taskVisible db task_id user_id) ∧
    ((update_task db task_id patch user_id).1.isSome
      ↔ taskVisible db task_id user_id) ∧
    ((delete_task db task_id user_id).1 = true
      ↔ taskVisible db task_id user_id) := by
  have key := find?_task_isSome db task_id user_id
  refine ⟨key, ?_, ?_⟩
  · unfold update_task
    rcases h : db.tasks.find?
        fun t => t.id == task_id && t.assigned_user_id == user_id with _ | t <;>
      simp [h] at key ⊢ <;> tauto
  · unfold delete_task
    rcases h : db.tasks.find?
        fun t => t.id == task_id && t.assigned_user_id == user_id with _ | t <;>
      simp [h] at key ⊢ <;> tauto

/-! ## Claim C3: tasks are always created assigned to the caller -/

/-- C3: `create_task` assigns `assigned_user_id = user_id` unconditionally
(whatever the request body holds), and across the whole mutating surface any
task present after an operation either keeps an assignee that already existed
in the store or is assigned to the operation's acting user — no operation can
produce a task assigned to a third party. -/
theorem create_task_assigns_caller (db : DB) (data : TaskCreate) (user_id : Nat)
    (op : Op) :
    (create_task db data user_id).1.assigned_user_id = user_id ∧
    (∀ t ∈ (applyOp db op).tasks,
      t.assigned_user_id ∈ db.tasks.map Task.assigned_user_id ∨
      t.assigned_user_id = op.actor) := by
  constructor
  · rfl
  · intro t ht
    cases op with
    | createTask data uid =>
        simp only [applyOp, create_task] at ht
        rcases List.mem_append.mp ht with h | h
        · exact Or.inl (List.mem_map_of_mem _ h)
        · simp at h
          subst h
          exact Or.inr rfl
    | updateTask task_id patch uid =>
        simp only [applyOp, update_task] at ht
        rcases hf : db.tasks.find?
            fun t => t.id == task_id && t.assigned_user_id == uid with _ | t0
        · rw [hf] at ht
          exact Or.inl (List.mem_map_of_mem _ ht)
        · rw [hf] at ht
          simp only at ht
          rcases mem_updateFirstP ht with h | ⟨y, hy, hxy⟩
          · exact Or.inl (List.mem_map_of_mem _ h)
          · subst hxy
            exact Or.inl (by
              simpa [applyTaskUpdate] using List.mem_map_of_mem Task.assigned_user_id hy)
    | deleteTask task_id uid =>
        simp only [applyOp, delete_task] at ht
        rcases hf : db.tasks.find?
            fun t => t.id == task_id && t.assigned_user_id == uid with _ | t0 <;>
          rw [hf] at ht
        · exact Or.inl (List.mem_map_of_mem _ ht)
        · exact Or.inl (List.mem_map_of_mem _ (mem_eraseFirstP ht))
    | createProject data uid =>
        exact Or.inl (List.mem_map_of_mem _ (by simpa [applyOp, create_project] using ht))
    | updateProject project_id patch uid =>
        simp only [applyOp, update_project] at ht
        rcases hf : db.projects.find?
            fun p => p.id == project_id && p.owner_id == uid with _ | p0 <;>
          rw [hf] at ht <;> exact Or.inl (List.mem_map_of_mem _ ht)
    | deleteProject project_id uid =>
        simp only [applyOp, delete_project] at ht
        rcases hf : db.projects.find?
            fun p => p.id == project_id && p.owner_id == uid with _ | p0 <;>
          rw [hf] at ht <;> exact Or.inl (List.mem_map_of_mem _ ht)
    | addTeamMember data uid =>
        simp only [applyOp, add_team_member] at ht
        rcases hf : db.projects.find? fun p => p.id == data.project_id with _ | p0 <;>
          rw [hf] at ht
        · exact Or.inl (List.mem_map_of_mem _ ht)
        · by_cases hperm : (p0.owner_id == uid ||
              (db.members.any fun m =>
                m.project_id == data.project_id && m.user_id == uid &&
                  (m.role == "owner" || m.role == "admin"))) = true
          · simp only [hperm] at ht
            rcases hm : db.members.find?
                fun m => m.project_id == data.project_id && m.user_id == data.user_id
              with _ | m0 <;> rw [hm] at ht <;>
              simp at ht <;> exact Or.inl (List.mem_map_of_mem _ ht)
          · simp only [Bool.not_eq_true] at hperm
            simp only [hperm] at ht
            simp at ht
            exact Or.inl (List.mem_map_of_mem _ ht)
    | removeTeamMember project_id target uid =>
        simp only [applyOp, remove_team_member] at ht
        rcases hf : db.projects.find? fun p => p.id == project_id with _ | p0 <;>
          rw [hf] at ht
        · exact Or.inl (List.mem_map_of_mem _ ht)
        · by_cases hperm : (p0.owner_id == uid ||
              (db.members.any fun m =>
                m.project_id == project_id && m.user_id == uid &&
                  (m.role == "owner" || m.role == "admin"))) = true
          · simp only [hperm] at ht
            by_cases hown : (p0.owner_id == target) = true
            · simp only [hown] at ht
              simp at ht
              exact Or.inl (List.mem_map_of_mem _ ht)
            · simp only [Bool.not_eq_true] at hown
              simp only [hown] at ht
              rcases hm : db.members.find?
                  fun m => m.project_id == project_id && m.user_id == target
                with _ | m0 <;> rw [hm] at ht <;>
                simp at ht <;> exact Or.inl (List.mem_map_of_mem _ ht)
          · simp only [Bool.not_eq_true] at hperm
            simp only [hperm] at ht
            simp at ht
            exact Or.inl (List.mem_map_of_mem _ ht)

/-! ## Claim C4: project write access is owner-only -/

/-- C4: `update_project` and `delete_project` succeed exactly when the actor
owns the project.  A non-owner — in particular a team member with role
`"admin"` — always gets the same `none`/`false` result as when the project
does not exist at all. -/
theorem project_write_owner_only (db : DB) (project_id user_id : Nat)
    (patch : ProjectUpdate) :
    ((update_project db project_id patch user_id).1.isSome
      ↔ projectOwned db project_id user_id) ∧
    ((delete_project db project_id user_id).1 = true
      ↔ projectOwned db project_id user_id) := by
  have key : (db.projects.find?
      fun p => p.id == project_id && p.owner_id == user_id).isSome
        ↔ projectOwned db project_id user_id := by
    rw [List.find?_isSome]
    simp [projectOwned]
  constructor
  · unfold update_project
    rcases h : db.projects.find?
        fun p => p.id == project_id && p.owner_id == user_id with _ | p <;>
      simp [h] at key ⊢ <;> tauto
  · unfold delete_project
    rcases h : db.projects.find?
        fun p => p.id == project_id && p.owner_id == user_id with _ | p <;>
      simp [h] at key ⊢ <;> tauto

/-! ## Claim C5: the project owner can never be removed from the team -/

/-- C5: whenever the project lookup of `remove_team_member` finds a project,
asking to remove that project's owner returns `False` and leaves the whole
state — in particular the membership rows — unchanged, for every requester
(including the owner themselves). -/
theorem remove_owner_always_denied (db : DB) (project_id requester : Nat)
    (p : Project) (h : (db.projects.find? fun q => q.id == project_id) = some p) :
    remove_team_member db project_id p.owner_id requester = (false, db) := by
  unfold remove_team_member
  rw [h]
  by_cases hperm : (p.owner_id == requester ||
      (db.members.any fun m =>
        m.project_id == project_id && m.user_id == requester &&
          (m.role == "owner" || m.role == "admin"))) = true
  · simp [hperm]
  · simp only [Bool.not_eq_true] at hperm
    simp [hperm]

/-- Witness for C5 at a concrete state: the owner of the one project of a
one-project store cannot remove themselves. -/
theorem remove_owner_always_denied_witness :
    remove_team_member (create_project DB.empty ⟨"Alpha", none, "planning"⟩ 1).2
      0 1 1 = (false, (create_project DB.empty ⟨"Alpha", none, "planning"⟩ 1).2) := by
  have h := remove_owner_always_denied
    (create_project DB.empty ⟨"Alpha", none, "planning"⟩ 1).2 0 1
    ⟨0, "Alpha", none, "planning", 1⟩ (by decide)
  exact h

/-! ## Branch characterizations of the team-membership operations -/

theorem add_team_member_no_project (db : DB) (d : TeamMemberCreate) (r : Nat)
    (hf : db.projects.find? (fun p => p.id == d.project_id) = none) :
    add_team_member db d r = (none, db) := by
  unfold add_team_member
  rw [hf]

theorem add_team_member_not_permitted (db : DB) (d : TeamMemberCreate) (r : Nat)
    (p0 : Project)
    (hf : db.projects.find? (fun p => p.id == d.project_id) = some p0)
    (hperm : teamWritePermitted db d.project_id p0 r = false) :
    add_team_member db d r = (none, db) := by
  unfold add_team_member
  rw [hf]
  simp only [teamWritePermitted] at hperm
  simp [hperm]

theorem add_team_member_pair_exists (db : DB) (d : TeamMemberCreate) (r : Nat)
    (p0 : Project) (m0 : TeamMember)
    (hf : db.projects.find? (fun p => p.id == d.project_id) = some p0)
    (hm : db.members.find?
      (fun m => m.project_id == d.project_id && m.user_id == d.user_id) = some m0) :
    add_team_member db d r = (none, db) := by
  unfold add_team_member
  rw [hf]
  by_cases hperm : teamWritePermitted db d.project_id p0 r = true
  · simp only [teamWritePermitted] at hperm
    simp [hperm, hm]
  · simp only [Bool.not_eq_true, teamWritePermitted] at hperm
    simp [hperm]

theorem add_team_member_insert (db : DB) (d : TeamMemberCreate) (r : Nat)
    (p0 : Project)
    (hf : db.projects.find? (fun p => p.id == d.project_id) = some p0)
    (hperm : teamWritePermitted db d.project_id p0 r = true)
    (hm : db.members.find?
      (fun m => m.project_id == d.project_id && m.user_id == d.user_id) = none) :
    add_team_member db d r =
      (some ⟨db.nextId, d.project_id, d.user_id, d.role⟩,
        { db with
          members := db.members ++ [⟨db.nextId, d.project_id, d.user_id, d.role⟩]
          nextId := db.nextId + 1 }) := by
  unfold add_team_member
  rw [hf]
  simp only [teamWritePermitted] at hperm
  simp [hperm, hm]

theorem remove_team_member_no_project (db : DB) (project_id target r : Nat)
    (hf : db.projects.find? (fun p => p.id == project_id) = none) :
    remove_team_member db project_id target r = (false, db) := by
  unfold remove_team_member
  rw [hf]

theorem remove_team_member_not_permitted (db : DB) (project_id target r : Nat)
    (p0 : Project)
    (hf : db.projects.find? (fun p => p.id == project_id) = some p0)
    (hperm : teamWritePermitted db project_id p0 r = false) :
    remove_team_member db project_id target r = (false, db) := by
  unfold remove_team_member
  rw [hf]
  simp only [teamWritePermitted] at hperm
  simp [hperm]

theorem remove_team_member_owner_protected (db : DB) (project_id r : Nat)
    (p0 : Project)
    (hf : db.projects.find? (fun p => p.id == project_id) = some p0) :
    remove_team_member db project_id p0.owner_id r = (false, db) := by
  unfold remove_team_member
  rw [hf]
  by_cases hperm : teamWritePermitted db project_id p0 r = true
  · simp only [teamWritePermitted] at hperm
    simp [hperm]
  · simp only [Bool.not_eq_true, teamWritePermitted] at hperm
    simp [hperm]

theorem remove_team_member_no_row (db : DB) (project_id target r : Nat)
    (p0 : Project)
    (hf : db.projects.find? (fun p => p.id == project_id) = some p0)
    (hm : db.members.find?
      (fun m => m.project_id == project_id && m.user_id == target) = none) :
    remove_team_member db project_id target r = (false, db) := by
  unfold remove_team_member
  rw [hf]
  by_cases hperm : teamWritePermitted db project_id p0 r = true
  · simp only [teamWritePermitted] at hperm
    by_cases hown : (p0.owner_id == target) = true
    · simp [hperm, hown]
    · simp only [Bool.not_eq_true] at hown
      simp [hperm, hown, hm]
  · simp only [Bool.not_eq_true, teamWritePermitted] at hperm
    simp [hperm]

theorem remove_team_member_erase (db : DB) (project_id target r : Nat)
    (p0 : Project) (m0 : TeamMember)
    (hf : db.projects.find? (fun p => p.id == project_id) = some p0)
    (hperm : teamWritePermitted db project_id p0 r = true)
    (hown : p0.owner_id ≠ target)
    (hm : db.members.find?
      (fun m => m.project_id == project_id && m.user_id == target) = some m0) :
    remove_team_member db project_id target r =
      (true,
        { db with
          members := eraseFirstP
            (fun m => m.project_id == project_id && m.user_id == target)
            db.members }) := by
  unfold remove_team_member
  rw [hf]
  simp only [teamWritePermitted] at hperm
  simp [hperm, hown, hm]

/-! ## Claim C6: duplicate team membership is silently rejected -/

/-- C6: if the pair already has a membership row, `add_team_member` returns
the same `none` as an authorization denial and changes nothing; any denial
leaves the state unchanged; and when a first call succeeds, an immediately
repeated call is denied, changes nothing further, and the pair is left with
exactly one membership row. -/
theorem add_team_member_duplicate_rejected (db : DB) (d : TeamMemberCreate)
    (requester : Nat) :
    ((∃ m ∈ db.members, m.project_id = d.project_id ∧ m.user_id = d.user_id) →
      add_team_member db d requester = (none, db)) ∧
    ((add_team_member db d requester).1 = none →
      (add_team_member db d requester).2 = db) ∧
    (∀ m1, (add_team_member db d requester).1 = some m1 →
      (add_team_member (add_team_member db d requester).2 d requester).1 = none ∧
      (add_team_member (add_team_member db d requester).2 d requester).2 =
        (add_team_member db d requester).2 ∧
      pairCount (add_team_member db d requester).2 d.project_id d.user_id = 1) := by
  rcases hf : db.projects.find? fun p => p.id == d.project_id with _ | p0
  · rw [add_team_member_no_project db d requester hf]
    simp
  · rcases hperm : teamWritePermitted db d.project_id p0 requester with _ | _
    · rw [add_team_member_not_permitted db d requester p0 hf hperm]
      simp
    · rcases hm : db.members.find?
          fun m => m.project_id == d.project_id && m.user_id == d.user_id with _ | m0
      · -- no existing row: the insert branch
        have hnone : ∀ m ∈ db.members,
            ¬(m.project_id == d.project_id && m.user_id == d.user_id) = true := by
          intro m hmem
          exact List.find?_eq_none.mp hm m hmem
        have hins := add_team_member_insert db d requester p0 hf hperm hm
        rw [hins]
        refine ⟨?_, by simp, ?_⟩
        · rintro ⟨m, hmem, h1, h2⟩
          exact absurd (by simp [h1, h2]) (hnone m hmem)
        · intro m1 _
          set newRow : TeamMember := ⟨db.nextId, d.project_id, d.user_id, d.role⟩ with hnew
          set db1 : DB :=
            { db with members := db.members ++ [newRow], nextId := db.nextId + 1 }
            with hdb1
          have hf1 : db1.projects.find? (fun p => p.id == d.project_id) = some p0 := hf
          have hm1 : db1.members.find?
              (fun m => m.project_id == d.project_id && m.user_id == d.user_id) =
              some newRow := by
            show (db.members ++ [newRow]).find? _ = some newRow
            rw [List.find?_append, hm]
            simp [hnew]
          have hrej := add_team_member_pair_exists db1 d requester p0 newRow hf1 hm1
          refine ⟨by rw [hrej], by rw [hrej], ?_⟩
          show db1.members.countP _ = 1
          have hz : db.members.countP
              (fun m => m.project_id == d.project_id && m.user_id == d.user_id) = 0 :=
            List.countP_eq_zero.mpr hnone
          show (db.members ++ [newRow]).countP _ = 1
          rw [List.countP_append, hz]
          simp [hnew]
      · -- existing row: silent rejection
        rw [add_team_member_pair_exists db d requester p0 m0 hf hm]
        simp

/-- Witness for C6 at a concrete state: the project owner adds user 2 once
(success), the repeated add is denied and exactly one row for the pair
remains. -/
theorem add_team_member_duplicate_rejected_witness :
    (add_team_member (add_team_member
        (create_project DB.empty ⟨"Alpha", none, "planning"⟩ 1).2
        ⟨"member", 2, 0⟩ 1).2 ⟨"member", 2, 0⟩ 1).1 = none ∧
    pairCount (add_team_member
        (create_project DB.empty ⟨"Alpha", none, "planning"⟩ 1).2
        ⟨"member", 2, 0⟩ 1).2 0 2 = 1 := by
  have h := (add_team_member_duplicate_rejected
    (create_project DB.empty ⟨"Alpha", none, "planning"⟩ 1).2
    ⟨"member", 2, 0⟩ 1).2.2
    ⟨2, 0, 2, "member"⟩ (by decide)
  exact ⟨h.1, h.2.2⟩

/-! ## Claim C10: task project pointers are not authorization-checked -/

/-- C10: `create_task` attaches the new task to whatever `project_id` the
request names — no ownership, membership or even existence check on the
project — and the raw per-project task count used by `get_project_with_team`
and the per-project analytics rows goes up by one; `update_task` likewise
re-points a task to any project named in the patch. -/
theorem task_project_pointer_unchecked (db : DB) (data : TaskCreate)
    (user_id project_id : Nat) (task_id : Nat) (patch : TaskUpdate) :
    (data.project_id = some project_id →
      (create_task db data user_id).1.project_id = some project_id ∧
      projectTaskCount (create_task db data user_id).2 project_id =
        projectTaskCount db project_id + 1) ∧
    (patch.project_id = some (some project_id) →
      ∀ t', (update_task db task_id patch user_id).1 = some t' →
        t'.project_id = some project_id) ∧
    (∀ st ∈ get_project_task_statistics db,
      st.total_tasks = projectTaskCount db st.project_id) := by
  refine ⟨?_, ?_, ?_⟩
  · intro hdata
    refine ⟨by simp [create_task, hdata], ?_⟩
    unfold projectTaskCount create_task
    simp [List.countP_append, hdata]
  · intro hpatch t' ht'
    unfold update_task at ht'
    rcases hfind : db.tasks.find?
        fun t => t.id == task_id && t.assigned_user_id == user_id with _ | t0 <;>
      rw [hfind] at ht'
    · simp at ht'
    · simp only [Option.some.injEq] at ht'
      subst ht'
      simp [applyTaskUpdate, hpatch]
  · intro st hst
    unfold get_project_task_statistics at hst
    rcases List.mem_map.mp hst with ⟨project, _, hpe⟩
    subst hpe
    rfl

/-- Witness for C10 at a concrete state: user 7, who owns nothing and belongs
to no team (the store has no project with id 42 at all), creates a task under
project 42, and the raw task count of project 42 becomes 1. -/
theorem task_project_pointer_unchecked_witness :
    (create_task DB.empty ⟨"t", none, "pending", "medium", some 42, none⟩ 7).1.project_id
        = some 42 ∧
    projectTaskCount
      (create_task DB.empty ⟨"t", none, "pending", "medium", some 42, none⟩ 7).2 42 = 1 := by
  have h := (task_project_pointer_unchecked DB.empty
    ⟨"t", none, "pending", "medium", some 42, none⟩ 7 42 0 {}).1 rfl
  simpa using h

/-! ## Claim C2: the owner's membership row -/

theorem eraseFirstP_sublist {α : Type} (p : α → Bool) (l : List α) :
    List.Sublist (eraseFirstP p l) l := by
  induction l with
  | nil => simp [eraseFirstP]
  | cons a as ih =>
      simp only [eraseFirstP]
      by_cases hp : p a
      · simp only [hp, if_true]
        exact (List.sublist_cons_self a as)
      · simp only [hp, if_false]
        exact List.Sublist.cons₂ a ih

theorem filter_eraseFirstP_disjoint {α : Type} {p q : α → Bool} {l : List α}
    (h : ∀ x ∈ l, p x = true → q x = false) :
    (eraseFirstP p l).filter q = l.filter q := by
  induction l with
  | nil => simp [eraseFirstP]
  | cons a as ih =>
      simp only [eraseFirstP]
      by_cases hp : p a
      · simp only [hp, if_true]
        have hq : q a = false := h a (List.mem_cons_self a as) hp
        simp [List.filter_cons, hq]
      · simp only [hp, if_false]
        have ih' := ih fun x hx => h x (List.mem_cons_of_mem a hx)
        simp [List.filter_cons, ih']

theorem map_updateFirstP {α β : Type} {p : α → Bool} {f : α → α} {g : α → β}
    {l : List α} (h : ∀ x, g (f x) = g x) :
    (updateFirstP p f l).map g = l.map g := by
  induction l with
  | nil => simp [updateFirstP]
  | cons a as ih =>
      simp only [updateFirstP]
      by_cases hp : p a
      · simp [hp, h a]
      · simp [hp, ih]

theorem ownerRows_congr {db db' : DB} {p q : Project}
    (hm : db'.members = db.members) (hid : q.id = p.id)
    (how : q.owner_id = p.owner_id) :
    ownerRows db' q = ownerRows db p := by
  unfold ownerRows
  rw [hm, hid, how]

/-- The predicate `WF` only looks at projects, members and the id counter, and is stable
under growing the counter. -/
theorem wf_of_parts {db db' : DB} (h : WF db)
    (hp : db'.projects = db.projects) (hm : db'.members = db.members)
    (hn : db.nextId ≤ db'.nextId) : WF db' := by
  obtain ⟨h1, h2, h3, h4⟩ := h
  refine ⟨?_, ?_, ?_, ?_⟩
  · intro p hpm
    rw [hp] at hpm
    exact lt_of_lt_of_le (h1 p hpm) hn
  · intro m hmm
    rw [hm] at hmm
    exact lt_of_lt_of_le (h2 m hmm) hn
  · rw [hp]; exact h3
  · intro p hpm
    rw [hp] at hpm
    obtain ⟨m, hrows, hrole⟩ := h4 p hpm
    exact ⟨m, by rw [ownerRows_congr hm rfl rfl]; exact hrows, hrole⟩

/-- Every mutating operation preserves well-formedness; in particular the
owner's membership row of each surviving project survives every operation. -/
theorem wf_applyOp (db : DB) (op : Op) (h : WF db) : WF (applyOp db op) := by
  obtain ⟨h1, h2, h3, h4⟩ := h
  cases op with
  | createTask data uid =>
      exact wf_of_parts ⟨h1, h2, h3, h4⟩ rfl rfl (Nat.le_succ _)
  | updateTask task_id patch uid =>
      show WF (update_task db task_id patch uid).2
      unfold update_task
      rcases hf : db.tasks.find?
          fun t => t.id == task_id && t.assigned_user_id == uid with _ | t0 <;>
        rw [hf]
      · exact ⟨h1, h2, h3, h4⟩
      · exact wf_of_parts ⟨h1, h2, h3, h4⟩ rfl rfl le_rfl
  | deleteTask task_id uid =>
      show WF (delete_task db task_id uid).2
      unfold delete_task
      rcases hf : db.tasks.find?
          fun t => t.id == task_id && t.assigned_user_id == uid with _ | t0 <;>
        rw [hf]
      · exact ⟨h1, h2, h3, h4⟩
      · exact wf_of_parts ⟨h1, h2, h3, h4⟩ rfl rfl le_rfl
  | createProject data uid =>
      show WF (create_project db data uid).2
      unfold create_project
      simp only
      set P : Project :=
        { id := db.nextId, name := data.name, description := data.description,
          status := data.status, owner_id := uid } with hP
      set Mrow : TeamMember :=
        { id := db.nextId + 1, project_id := db.nextId, user_id := uid,
          role := "owner" } with hM
      refine ⟨?_, ?_, ?_, ?_⟩
      · intro p hpm
        rcases List.mem_append.mp hpm with hmem | hmem
        · exact lt_of_lt_of_le (h1 p hmem) (show db.nextId ≤ db.nextId + 2 by omega)
        · simp at hmem
          subst hmem
          show db.nextId < db.nextId + 2
          omega
      · intro m hmm
        rcases List.mem_append.mp hmm with hmem | hmem
        · exact lt_of_lt_of_le (h2 m hmem) (show db.nextId ≤ db.nextId + 2 by omega)
        · simp at hmem
          subst hmem
          show db.nextId < db.nextId + 2
          omega
      · rw [List.map_append]
        simp only [List.map_cons, List.map_nil]
        rw [List.nodup_append]
        refine ⟨h3, List.nodup_singleton _, ?_⟩
        intro a ha hb
        simp at hb
        rcases List.mem_map.mp ha with ⟨p, hpm, hpe⟩
        have := h1 p hpm
        omega
      · intro p hpm
        rcases List.mem_append.mp hpm with hmem | hmem
        · obtain ⟨m, hrows, hrole⟩ := h4 p hmem
          refine ⟨m, ?_, hrole⟩
          show (db.members ++ [Mrow]).filter _ = [m]
          rw [List.filter_append]
          have : [Mrow].filter
              (fun m => m.project_id == p.id && m.user_id == p.owner_id) = [] := by
            have hid := h1 p hmem
            simp only [List.filter_cons, List.filter_nil]
            have : (Mrow.project_id == p.id) = false := by
              simp only [hM]
              simp only [beq_eq_false_iff_ne, ne_eq]
              omega
            simp [this]
          rw [this, List.append_nil]
          exact hrows
        · simp at hmem
          subst hmem
          refine ⟨Mrow, ?_, rfl⟩
          show (db.members ++ [Mrow]).filter _ = [Mrow]
          rw [List.filter_append]
          have hnil : db.members.filter
              (fun m => m.project_id == P.id && m.user_id == P.owner_id) = [] := by
            rw [List.filter_eq_nil_iff]
            intro m hmm
            have := h2 m hmm
            simp only [hP, Bool.and_eq_true, beq_iff_eq]
            rintro ⟨he, -⟩
            omega
          rw [hnil, List.nil_append]
          simp [hM, hP]
  | updateProject project_id patch uid =>
      show WF (update_project db project_id patch uid).2
      unfold update_project
      rcases hf : db.projects.find?
          fun p => p.id == project_id && p.owner_id == uid with _ | p0 <;>
        rw [hf]
      · exact ⟨h1, h2, h3, h4⟩
      · simp only
        have hpres : ∀ q : Project,
            (applyProjectUpdate q patch).id = q.id ∧
            (applyProjectUpdate q patch).owner_id = q.owner_id := fun q => ⟨rfl, rfl⟩
        refine ⟨?_, h2, ?_, ?_⟩
        · intro p hpm
          rcases mem_updateFirstP hpm with hmem | ⟨y, hy, hye⟩
          · exact h1 p hmem
          · subst hye
            rw [(hpres y).1]
            exact h1 y hy
        · rw [map_updateFirstP fun q => (hpres q).1]
          exact h3
        · intro p hpm
          rcases mem_updateFirstP hpm with hmem | ⟨y, hy, hye⟩
          · obtain ⟨m, hrows, hrole⟩ := h4 p hmem
            exact ⟨m, by rw [ownerRows_congr rfl rfl rfl]; exact hrows, hrole⟩
          · subst hye
            obtain ⟨m, hrows, hrole⟩ := h4 y hy
            exact ⟨m,
              by rw [ownerRows_congr rfl (hpres y).1 (hpres y).2]; exact hrows, hrole⟩
  | deleteProject project_id uid =>
      show WF (delete_project db project_id uid).2
      unfold delete_project
      rcases hf : db.projects.find?
          fun p => p.id == project_id && p.owner_id == uid with _ | p0 <;>
        rw [hf]
      · exact ⟨h1, h2, h3, h4⟩
      · simp only
        refine ⟨?_, h2, ?_, ?_⟩
        · intro p hpm
          exact h1 p (mem_eraseFirstP hpm)
        · exact ((eraseFirstP_sublist _ _).map Project.id).nodup h3
        · intro p hpm
          obtain ⟨m, hrows, hrole⟩ := h4 p (mem_eraseFirstP hpm)
          exact ⟨m, by rw [ownerRows_congr rfl rfl rfl]; exact hrows, hrole⟩
  | addTeamMember data uid =>
      show WF (add_team_member db data uid).2
      rcases hf : db.projects.find? fun p => p.id == data.project_id with _ | p0
      · rw [add_team_member_no_project db data uid hf]
        exact ⟨h1, h2, h3, h4⟩
      · rcases hperm : teamWritePermitted db data.project_id p0 uid with _ | _
        · rw [add_team_member_not_permitted db data uid p0 hf hperm]
          exact ⟨h1, h2, h3, h4⟩
        · rcases hm : db.members.find?
              fun m => m.project_id == data.project_id &&
                m.user_id == data.user_id with _ | m0
          · rw [add_team_member_insert db data uid p0 hf hperm hm]
            have hp0id : p0.id = data.project_id := by
              have := List.find?_some hf
              simpa using this
            have hp0mem : p0 ∈ db.projects := List.mem_of_find?_eq_some hf
            set newRow : TeamMember :=
              ⟨db.nextId, data.project_id, data.user_id, data.role⟩ with hnew
            refine ⟨?_, ?_, h3, ?_⟩
            · intro p hpm
              exact lt_of_lt_of_le (h1 p hpm) (Nat.le_succ _)
            · intro m hmm
              rcases List.mem_append.mp hmm with hmem | hmem
              · exact lt_of_lt_of_le (h2 m hmem) (Nat.le_succ _)
              · simp at hmem
                subst hmem
                show data.project_id < db.nextId + 1
                have := h1 p0 hp0mem
                omega
            · intro p hpm
              obtain ⟨m, hrows, hrole⟩ := h4 p hpm
              refine ⟨m, ?_, hrole⟩
              show (db.members ++ [newRow]).filter _ = [m]
              rw [List.filter_append]
              have hnil : [newRow].filter
                  (fun m => m.project_id == p.id && m.user_id == p.owner_id) = [] := by
                simp only [List.filter_cons, List.filter_nil]
                by_cases hcase :
                    (newRow.project_id == p.id && newRow.user_id == p.owner_id) = true
                · exfalso
                  simp only [hnew, Bool.and_eq_true, beq_iff_eq] at hcase
                  obtain ⟨hpid, howner⟩ := hcase
                  have hm_in : m ∈ ownerRows db p := by
                    rw [hrows]
                    exact List.mem_singleton.mpr rfl
                  obtain ⟨hm_mem, hm_pred⟩ := List.mem_filter.mp hm_in
                  simp only [Bool.and_eq_true, beq_iff_eq] at hm_pred
                  have : (m.project_id == data.project_id &&
                      m.user_id == data.user_id) = true := by
                    simp only [Bool.and_eq_true, beq_iff_eq]
                    omega
                  exact absurd this (by
                    have := List.find?_eq_none.mp hm m hm_mem
                    simpa using this)
                · simp only [Bool.not_eq_true] at hcase
                  simp [hcase]
              rw [hnil, List.append_nil]
              exact hrows
          · rw [add_team_member_pair_exists db data uid p0 m0 hf hm]
            exact ⟨h1, h2, h3, h4⟩
  | removeTeamMember project_id target uid =>
      show WF (remove_team_member db project_id target uid).2
      rcases hf : db.projects.find? fun p => p.id == project_id with _ | p0
      · rw [remove_team_member_no_project db project_id target uid hf]
        exact ⟨h1, h2, h3, h4⟩
      · rcases hperm : teamWritePermitted db project_id p0 uid with _ | _
        · rw [remove_team_member_not_permitted db project_id target uid p0 hf hperm]
          exact ⟨h1, h2, h3, h4⟩
        · by_cases hown : p0.owner_id = target
          · subst hown
            rw [remove_team_member_owner_protected db project_id uid p0 hf]
            exact ⟨h1, h2, h3, h4⟩
          · rcases hm : db.members.find?
                fun m => m.project_id == project_id && m.user_id == target with _ | m0
            · rw [remove_team_member_no_row db project_id target uid p0 hf hm]
              exact ⟨h1, h2, h3, h4⟩
            · rw [remove_team_member_erase db project_id target uid p0 m0 hf hperm hown hm]
              have hp0id : p0.id = project_id := by
                have := List.find?_some hf
                simpa using this
              have hp0mem : p0 ∈ db.projects := List.mem_of_find?_eq_some hf
              refine ⟨h1, ?_, h3, ?_⟩
              · intro m hmm
                exact h2 m (mem_eraseFirstP hmm)
              · intro p hpm
                obtain ⟨m, hrows, hrole⟩ := h4 p hpm
                refine ⟨m, ?_, hrole⟩
                show (eraseFirstP _ db.members).filter _ = [m]
                rw [filter_eraseFirstP_disjoint]
                · exact hrows
                · intro x _ hx
                  simp only [Bool.and_eq_true, beq_iff_eq] at hx
                  obtain ⟨hxp, hxu⟩ := hx
                  by_cases hcase :
                      (x.project_id == p.id && x.user_id == p.owner_id) = true
                  · exfalso
                    simp only [Bool.and_eq_true, beq_iff_eq] at hcase
                    obtain ⟨hcp, hcu⟩ := hcase
                    have hpid : p.id = project_id := by omega
                    have hpp0 : p = p0 := by
                      have hinj := List.inj_on_of_nodup_map h3
                      exact hinj hpm hp0mem (by rw [hpid, hp0id])
                    apply hown
                    rw [← hpp0]
                    omega
                  · simp only [Bool.not_eq_true] at hcase
                    exact hcase

/-- The empty store is well-formed. -/
theorem wf_empty : WF DB.empty := by
  refine ⟨?_, ?_, ?_, ?_⟩ <;> simp [DB.empty, WF]

/-- Well-formedness holds along every trace. -/
theorem wf_run (ops : List Op) (db : DB) (h : WF db) : WF (run db ops) := by
  induction ops generalizing db with
  | nil => simpa [run] using h
  | cons op ops ih =>
      show WF (run (applyOp db op) ops)
      exact ih _ (wf_applyOp db op h)

/-- Counterexample to C2 as stated: in a reachable state, project 0 exists
and has TWO membership rows with role `"owner"` (the second one for user 2,
who is not the owner), because `add_team_member` copies the requested role
string verbatim without validating it. -/
theorem two_owner_role_rows_reachable :
    (⟨0, "Alpha", none, "planning", 1⟩ : Project) ∈
        (run DB.empty twoOwnerRoleTrace).projects ∧
    ((run DB.empty twoOwnerRoleTrace).members.countP
        fun m => m.project_id == 0 && m.role == "owner") = 2 := by
  decide

/-- C2 (amended): in every state reachable by the repository operations from
the empty store, each project has exactly one membership row whose `user_id`
is the project's `owner_id`; that row carries role `"owner"`, and since this
holds after every operation, no operation ever removes it while the project
exists.  (Rows with role `"owner"` for OTHER users are reachable, because
`add_team_member` does not validate the requested role — see the
counterexample above.) -/
theorem project_owner_row_invariant (ops : List Op) :
    ∀ p ∈ (run DB.empty ops).projects,
      ∃ m, ownerRows (run DB.empty ops) p = [m] ∧
        m.user_id = p.owner_id ∧ m.role = "owner" := by
  intro p hp
  obtain ⟨-, -, -, h4⟩ := wf_run ops DB.empty wf_empty
  obtain ⟨m, hrows, hrole⟩ := h4 p hp
  refine ⟨m, hrows, ?_, hrole⟩
  have hm_in : m ∈ ownerRows (run DB.empty ops) p := by
    rw [hrows]
    exact List.mem_singleton.mpr rfl
  obtain ⟨-, hm_pred⟩ := List.mem_filter.mp hm_in
  simp only [Bool.and_eq_true, beq_iff_eq] at hm_pred
  exact hm_pred.2

/-- Witness for the amended C2 at a concrete trace: after user 1 creates a
project, the project's one owner row is user 1's with role `"owner"`. -/
theorem project_owner_row_invariant_witness :
    ∃ m, ownerRows (run DB.empty [.createProject ⟨"Alpha", none, "planning"⟩ 1])
        ⟨0, "Alpha", none, "planning", 1⟩ = [m] ∧
      m.user_id = 1 ∧ m.role = "owner" := by
  have h := project_owner_row_invariant
    [.createProject ⟨"Alpha", none, "planning"⟩ 1]
    ⟨0, "Alpha", none, "planning", 1⟩ (by decide)
  exact h

/-! ## Claim C7: a created project is listed exactly once for its creator -/

theorem get_projects_eq_all (db : DB) (user_id skip limit : Nat) :
    get_projects db user_id skip limit =
      ((get_projects_all db user_id).drop skip).take limit := rfl

theorem mem_dedupById {l : List Project} {x : Project} (h : x ∈ dedupById l) :
    x ∈ l := by
  induction l using dedupById.induct with
  | case1 => simp [dedupById] at h
  | case2 p ps ih =>
      rw [dedupById] at h
      rcases List.mem_cons.mp h with h | h
      · simp [h]
      · exact List.mem_cons_of_mem _ (List.mem_of_mem_filter (ih h))

theorem countP_id_dedupById (i : Nat) (l : List Project) :
    (dedupById l).countP (fun q => q.id == i) =
      if ∃ x ∈ l, x.id = i then 1 else 0 := by
  induction l using dedupById.induct with
  | case1 => simp [dedupById]
  | case2 p ps ih =>
      rw [dedupById, List.countP_cons]
      by_cases hpi : p.id = i
      · rw [if_pos (show ∃ x ∈ p :: ps, x.id = i from
          ⟨p, List.mem_cons_self p ps, hpi⟩)]
        have hzero : ¬∃ x ∈ ps.filter (fun q => !(q.id == p.id)), x.id = i := by
          rintro ⟨x, hx, hxi⟩
          obtain ⟨-, hxp⟩ := List.mem_filter.mp hx
          simp only [Bool.not_eq_true', beq_eq_false_iff_ne, ne_eq] at hxp
          exact hxp (by rw [hxi, hpi])
        rw [ih, if_neg hzero]
        simp [hpi]
      · have hiff : (∃ x ∈ ps.filter (fun q => !(q.id == p.id)), x.id = i) ↔
            (∃ x ∈ p :: ps, x.id = i) := by
          constructor
          · rintro ⟨x, hx, hxi⟩
            exact ⟨x, List.mem_cons_of_mem _ (List.mem_of_mem_filter hx), hxi⟩
          · rintro ⟨x, hx, hxi⟩
            rcases List.mem_cons.mp hx with h | h
            · exact absurd (h ▸ hxi) hpi
            · refine ⟨x, List.mem_filter.mpr ⟨h, ?_⟩, hxi⟩
              simp only [Bool.not_eq_true', beq_eq_false_iff_ne, ne_eq]
              intro hxp
              exact hpi (by rw [← hxp, hxi])
        rw [ih, if_congr hiff rfl rfl]
        simp [hpi]

theorem mem_projects_of_mem_listing_input {db : DB} {user_id : Nat} {x : Project}
    (h : x ∈ (db.projects.filter fun p => p.owner_id == user_id) ++
      (db.projects.flatMap fun p =>
        (db.members.filter fun m => m.project_id == p.id && m.user_id == user_id).map
          fun _ => p)) : x ∈ db.projects := by
  rcases List.mem_append.mp h with h | h
  · exact List.mem_of_mem_filter h
  · rcases List.mem_flatMap.mp h with ⟨p, hp, hx⟩
    rcases List.mem_map.mp hx with ⟨m, -, hme⟩
    rw [← hme]
    exact hp

/-- C7: right after `create_project db pc uid`, the creator's project listing
(with no pagination cutoff) contains the new project exactly once — the
`union` de-duplicates the owner row against the owner's own membership row —
and a `(project, uid, "owner")` membership row exists. -/
theorem created_project_listed_once (db : DB) (pc : ProjectCreate)
    (uid limit : Nat) (hwf : WF db)
    (hlim : (get_projects_all (create_project db pc uid).2 uid).length ≤ limit) :
    ((get_projects (create_project db pc uid).2 uid 0 limit).countP
        (fun q => q == (create_project db pc uid).1)) = 1 ∧
    (∃ m ∈ (create_project db pc uid).2.members,
      m.project_id = (create_project db pc uid).1.id ∧
      m.user_id = uid ∧ m.role = "owner") := by
  obtain ⟨h1, -, -, -⟩ := hwf
  constructor
  · rw [get_projects_eq_all, List.drop_zero, List.take_of_length_le hlim]
    set db' := (create_project db pc uid).2 with hdb'
    set P := (create_project db pc uid).1 with hP
    have hPid : P.id = db.nextId := rfl
    have hprojects : db'.projects = db.projects ++ [P] := rfl
    have hfresh : ∀ q ∈ db'.projects, q.id = P.id → q = P := by
      intro q hq hqid
      rw [hprojects] at hq
      rcases List.mem_append.mp hq with h | h
      · exact absurd hqid (by have := h1 q h; rw [hPid]; omega)
      · simpa using h
    have hsub : ∀ x ∈ get_projects_all db' uid, x ∈ db'.projects := fun x hx =>
      mem_projects_of_mem_listing_input (mem_dedupById hx)
    have hcongr : (get_projects_all db' uid).countP (fun q => q == P) =
        (get_projects_all db' uid).countP (fun q => q.id == P.id) := by
      apply List.countP_congr
      intro x hx
      simp only [beq_iff_eq]
      constructor
      · intro h; rw [h]
      · intro h; exact hfresh x (hsub x hx) h
    rw [hcongr]
    show (dedupById _).countP _ = 1
    rw [countP_id_dedupById]
    rw [if_pos]
    refine ⟨P, List.mem_append_left _ ?_, rfl⟩
    apply List.mem_filter.mpr
    refine ⟨List.mem_append_right _ (List.mem_singleton.mpr rfl), ?_⟩
    rw [hP]
    exact beq_self_eq_true uid
  · exact ⟨⟨db.nextId + 1, db.nextId, uid, "owner"⟩,
      List.mem_append_right _ (List.mem_singleton.mpr rfl), rfl, rfl, rfl⟩

/-- Witness for C7 at a concrete state: user 1 creates the first project of
an empty store; their listing shows it exactly once and the owner membership
row exists. -/
theorem created_project_listed_once_witness :
    ((get_projects (create_project DB.empty ⟨"Alpha", none, "planning"⟩ 1).2 1 0 100).countP
        (fun q => q == (create_project DB.empty ⟨"Alpha", none, "planning"⟩ 1).1)) = 1 ∧
    (∃ m ∈ (create_project DB.empty ⟨"Alpha", none, "planning"⟩ 1).2.members,
      m.project_id = (create_project DB.empty ⟨"Alpha", none, "planning"⟩ 1).1.id ∧
      m.user_id = 1 ∧ m.role = "owner") := by
  exact created_project_listed_once DB.empty ⟨"Alpha", none, "planning"⟩ 1 100
    wf_empty (by simp [get_projects_all, dedupById, create_project, DB.empty])

/-! ## Claim C8: completion rates are guarded against empty denominators -/

theorem round2_bounds {q : ℚ} (h0 : 0 ≤ q) (h1 : q ≤ 100) :
    0 ≤ round2 q ∧ round2 q ≤ 100 := by
  unfold round2
  have hfl0 : (0 : ℤ) ≤ round (q * 100) := by
    rw [round_eq]
    have : (0 : ℤ) = ⌊(1 : ℚ) / 2⌋ := by
      symm
      rw [Int.floor_eq_zero_iff]
      constructor <;> norm_num
    rw [this]
    apply Int.floor_mono
    nlinarith
  have hfl1 : round (q * 100) ≤ 10000 := by
    rw [round_eq]
    have : (10000 : ℤ) = ⌊(10000 : ℚ) + 1 / 2⌋ := by
      symm
      rw [Int.floor_eq_iff]
      constructor <;> norm_num
    rw [this]
    apply Int.floor_mono
    nlinarith
  constructor
  · apply div_nonneg _ (by norm_num)
    exact_mod_cast hfl0
  · rw [div_le_iff₀ (by norm_num)]
    calc ((round (q * 100) : ℤ) : ℚ) ≤ ((10000 : ℤ) : ℚ) := by exact_mod_cast hfl1
      _ = 100 * 100 := by norm_num

theorem rate_bounds (c t : Nat) (hct : c ≤ t) (ht : 0 < t) :
    0 ≤ round2 ((c : ℚ) / (t : ℚ) * 100) ∧
    round2 ((c : ℚ) / (t : ℚ) * 100) ≤ 100 := by
  have htq : (0 : ℚ) < (t : ℚ) := by exact_mod_cast ht
  have h0 : 0 ≤ (c : ℚ) / (t : ℚ) * 100 := by positivity
  have h1 : (c : ℚ) / (t : ℚ) * 100 ≤ 100 := by
    have : (c : ℚ) / (t : ℚ) ≤ 1 := by
      rw [div_le_one htq]
      exact_mod_cast hct
    nlinarith
  exact round2_bounds h0 h1

/-- C8: both in the system overview and in every per-user statistics row, the
completion rate is exactly 0 when the task total is 0, equals the completed
fraction times 100 rounded to two decimals when the total is positive, and
always lies in `[0, 100]` — the division is never taken with a zero
denominator. -/
theorem completion_rate_guarded (db : DB) :
    ((get_system_overview db).total_tasks = 0 →
      (get_system_overview db).completion_rate = 0) ∧
    (0 < (get_system_overview db).total_tasks →
      (get_system_overview db).completion_rate =
        round2 (((get_system_overview db).completed_tasks : ℚ) /
          ((get_system_overview db).total_tasks : ℚ) * 100)) ∧
    (0 ≤ (get_system_overview db).completion_rate ∧
      (get_system_overview db).completion_rate ≤ 100) ∧
    (∀ s ∈ get_user_task_statistics db,
      (s.total_tasks = 0 → s.completion_rate = 0) ∧
      (0 < s.total_tasks →
        s.completion_rate =
          round2 ((s.completed_tasks : ℚ) / (s.total_tasks : ℚ) * 100)) ∧
      (0 ≤ s.completion_rate ∧ s.completion_rate ≤ 100)) := by
  have hover_completed_le : (db.tasks.countP fun t => t.status == "completed") ≤
      db.tasks.length := List.countP_le_length _
  refine ⟨?_, ?_, ?_, ?_⟩
  · intro h
    simp only [get_system_overview] at h ⊢
    simp [h]
  · intro h
    simp only [get_system_overview] at h ⊢
    rw [if_pos h]
  · simp only [get_system_overview]
    by_cases h : 0 < db.tasks.length
    · rw [if_pos h]
      exact rate_bounds _ _ hover_completed_le h
    · rw [if_neg h]
      norm_num
  · intro s hs
    rcases List.mem_map.mp hs with ⟨user, -, hse⟩
    subst hse
    have hc_le : (db.tasks.countP fun t =>
        t.assigned_user_id == user.id && t.status == "completed") ≤
        (db.tasks.countP fun t => t.assigned_user_id == user.id) :=
      List.countP_mono_left fun x _ hx => by
        simp only [Bool.and_eq_true] at hx
        exact hx.1
    refine ⟨?_, ?_, ?_⟩
    · intro h
      simp only [get_user_task_statistics] at h ⊢
      simp [h]
    · intro h
      simp only [get_user_task_statistics] at h ⊢
      rw [if_pos h]
    · simp only [get_user_task_statistics]
      by_cases h : 0 < db.tasks.countP fun t => t.assigned_user_id == user.id
      · rw [if_pos h]
        exact rate_bounds _ _ hc_le h
      · rw [if_neg h]
        norm_num

/-- Witness for C8 at a concrete state: with two tasks, one completed, the
overview rate is the rounded completed fraction, and the one user's row obeys
the same formula and bounds. -/
theorem completion_rate_guarded_witness :
    ((get_system_overview c8Db).completion_rate =
      round2 (((get_system_overview c8Db).completed_tasks : ℚ) /
        ((get_system_overview c8Db).total_tasks : ℚ) * 100)) ∧
    ((c8UserStats.total_tasks = 0 → c8UserStats.completion_rate = 0) ∧
      (0 < c8UserStats.total_tasks →
        c8UserStats.completion_rate =
          round2 ((c8UserStats.completed_tasks : ℚ) /
            (c8UserStats.total_tasks : ℚ) * 100)) ∧
      (0 ≤ c8UserStats.completion_rate ∧ c8UserStats.completion_rate ≤ 100)) := by
  refine ⟨(completion_rate_guarded c8Db).2.1 (by decide),
    (completion_rate_guarded c8Db).2.2.2 c8UserStats ?_⟩
  simp [get_user_task_statistics, c8Db, c8UserStats, round2, round_eq]
  norm_num

/-! ## Claim C9: user search is `ILIKE`, not literal substring match -/

/-- ASCII lowering sends no ordinary character to a `LIKE` wildcard. -/
theorem toLower_preserves_nonwild {c : Char} (hp : c ≠ '%') (hu : c ≠ '_') :
    Char.toLower c ≠ '%' ∧ Char.toLower c ≠ '_' := by
  have hdef : Char.toLower c =
      if c.toNat ≥ 65 ∧ c.toNat ≤ 90 then Char.ofNat (c.toNat + 32) else c := rfl
  rw [hdef]
  by_cases h : c.toNat ≥ 65 ∧ c.toNat ≤ 90
  · rw [if_pos h]
    obtain ⟨h1, h2⟩ := h
    generalize c.toNat = n at h1 h2
    interval_cases n <;> exact ⟨by decide, by decide⟩
  · rw [if_neg h]
    exact ⟨hp, hu⟩

theorem likeMatch_nil (s : List Char) : likeMatch [] s = s.isEmpty := rfl

theorem likeMatch_percent (ps s : List Char) :
    likeMatch ('%' :: ps) s = s.tails.any fun t => likeMatch ps t := rfl

/-- A wildcard-free pattern followed by `%` matches exactly the subjects it
prefixes. -/
theorem likeMatch_literal_percent {L : List Char}
    (hL : ∀ c ∈ L, c ≠ '%' ∧ c ≠ '_') :
    ∀ s : List Char, likeMatch (L ++ ['%']) s = true ↔ L <+: s := by
  induction L with
  | nil =>
      intro s
      rw [List.nil_append]
      constructor
      · intro _
        exact List.nil_prefix
      · intro _
        rw [likeMatch_percent, List.any_eq_true]
        exact ⟨[], (List.mem_tails _ _).mpr List.nil_suffix, rfl⟩
  | cons c L ih =>
      intro s
      obtain ⟨hc1, hc2⟩ := hL c (List.mem_cons_self c L)
      have ih' := ih fun x hx => hL x (List.mem_cons_of_mem c hx)
      rw [List.cons_append]
      cases s with
      | nil =>
          rw [likeMatch.eq_def]
          simp only [if_neg hc1]
          simp
      | cons a s' =>
          rw [likeMatch.eq_def]
          simp only [if_neg hc1]
          simp only [Bool.and_eq_true, Bool.or_eq_true, beq_iff_eq,
            List.cons_prefix_cons, ih' s']
          constructor
          · rintro ⟨hca, hrest⟩
            rcases hca with hca | hca
            · exact absurd hca hc2
            · exact ⟨hca, hrest⟩
          · rintro ⟨hca, hrest⟩
            exact ⟨Or.inr hca, hrest⟩

/-- A pattern `%L%` with a wildcard-free `L` matches exactly the subjects containing
`L` contiguously. -/
theorem likeMatch_substring {L : List Char} (hL : ∀ c ∈ L, c ≠ '%' ∧ c ≠ '_')
    (s : List Char) :
    likeMatch ('%' :: L ++ ['%']) s = true ↔ List.IsInfix L s := by
  rw [List.infix_iff_prefix_suffix]
  rw [show ('%' :: L ++ ['%'] : List Char) = '%' :: (L ++ ['%']) from rfl]
  rw [likeMatch_percent, List.any_eq_true]
  constructor
  · rintro ⟨t, ht, hmatch⟩
    exact ⟨t, (likeMatch_literal_percent hL t).mp hmatch,
      (List.mem_tails _ _).mp ht⟩
  · rintro ⟨t, hpre, hsuf⟩
    exact ⟨t, (List.mem_tails _ _).mpr hsuf,
      (likeMatch_literal_percent hL t).mpr hpre⟩

/-- C9 (amended): for a query fragment containing no `LIKE` wildcard
characters (`%`, `_`), `search_users_by_email` returns exactly the users
whose lowercased email contains the lowercased query as a contiguous
substring, up to the limit.  (For queries containing `%` or `_` the match is
`LIKE`-pattern matching, not literal containment — see the counterexample.) -/
theorem search_users_substring_for_literal_query (db : DB)
    (email_query : String) (limit : Nat)
    (hq : ∀ c ∈ email_query.data, c ≠ '%' ∧ c ≠ '_') :
    search_users_by_email db email_query limit =
      (db.users.filter fun u =>
        decide (emailContainsQueryCI email_query u.email)).take limit := by
  unfold search_users_by_email
  congr 1
  apply List.filter_congr
  intro u _
  have hlow : ∀ c ∈ lowerList email_query.data, c ≠ '%' ∧ c ≠ '_' := by
    intro c hc
    rcases List.mem_map.mp hc with ⟨c0, hc0, hce⟩
    obtain ⟨h1, h2⟩ := hq c0 hc0
    rw [← hce]
    exact toLower_preserves_nonwild h1 h2
  have hpat : lowerList ('%' :: email_query.data ++ ['%']) =
      '%' :: lowerList email_query.data ++ ['%'] := by
    unfold lowerList
    rw [List.map_append, List.map_cons]
    rfl
  rw [hpat]
  rw [Bool.eq_iff_iff]
  rw [likeMatch_substring hlow]
  rw [decide_eq_true_eq]
  exact Iff.rfl

/-- Counterexample to C9 as stated: the query `"a_c"` returns the user with
email `"abc@x.com"` (the `_` is a live `LIKE` wildcard matching `b`), yet
`"a_c"` is not a case-insensitive substring of that email — the query's
characters are not treated literally. -/
theorem search_wildcard_not_literal :
    search_users_by_email searchDb "a_c" 10 =
      [⟨1, "abc@x.com", "abc", none, true, false⟩] ∧
    ¬ emailContainsQueryCI "a_c" "abc@x.com" := by
  constructor
  · decide
  · decide

/-- Witness for the amended C9 at a concrete state: a wildcard-free query
returns exactly the literal-substring matches. -/
theorem search_users_substring_witness :
    search_users_by_email searchDb "B@x" 10 =
      (searchDb.users.filter fun u =>
        decide (emailContainsQueryCI "B@x" u.email)).take 10 :=
  search_users_substring_for_literal_query searchDb "B@x" 10 (by decide)

end WorkflowPro
